import Mathlib

/-!
# Verification of the iTop → Elasticsearch synchronizer core

Shallow embedding of the synchronizer's core (src/main.go and the itop
package file) in Lean 4, together with proofs of the specified properties:
the SLA compliance verdict logic, the diff-sync reconciliation step, the
identity-hash addressing of sink records, the person-team resolver cache,
and the sink delete status handling.

Machine integers are modelled as `Nat` with explicit reduction modulo
`2 ^ 32` where the 32-bit SHA-1 arithmetic wraps; Go `float64` second
counts and `time.Duration` values are modelled as `ℚ` (only ordering and
equality on them matter to the verdict logic).
-/

namespace ItopSync

/-! ## SHA-1 (crypto/sha1), used by hashTicketKey

A byte-level implementation of SHA-1 over `List Nat` (each entry a byte),
mirroring `sha1.New/Write/Sum` as used in `hashTicketKey`: words are
`Nat` values kept below `2 ^ 32` by explicit `% 2 ^ 32`. -/

/-- Left-rotate a 32-bit word (a `Nat` below `2 ^ 32`) by `n` bits. -/
def rotl32 (n x : Nat) : Nat :=
  ((x <<< n) % 2 ^ 32) ||| (x >>> (32 - n))

/-- The SHA-1 round function `f_t(b, c, d)`. -/
def sha1F (t b c d : Nat) : Nat :=
  if t < 20 then (b &&& c) ||| ((b ^^^ (2 ^ 32 - 1)) &&& d)
  else if t < 40 then b ^^^ c ^^^ d
  else if t < 60 then (b &&& c) ||| (b &&& d) ||| (c &&& d)
  else b ^^^ c ^^^ d

/-- The SHA-1 round constant `K_t`. -/
def sha1K (t : Nat) : Nat :=
  if t < 20 then 0x5A827999
  else if t < 40 then 0x6ED9EBA1
  else if t < 60 then 0x8F1BBCDC
  else 0xCA62C1D6

/-- Group a byte list into big-endian 32-bit words. -/
def bytesToWords : List Nat → List Nat
  | b0 :: b1 :: b2 :: b3 :: rest =>
      (((b0 * 256 + b1) * 256 + b2) * 256 + b3) :: bytesToWords rest
  | _ => []

/-- Extend the 16-word schedule to 80 words (`fuel` counts the words left to add). -/
def sha1Extend (w : List Nat) : Nat → List Nat
  | 0 => w
  | fuel + 1 =>
      let t := w.length
      let word := rotl32 1 ((w.getD (t - 3) 0) ^^^ (w.getD (t - 8) 0) ^^^
        (w.getD (t - 14) 0) ^^^ (w.getD (t - 16) 0))
      sha1Extend (w ++ [word]) fuel

/-- Run the 80 compression rounds of one block over state `(a, b, c, d, e)`. -/
def sha1Rounds (w : List Nat) (h : Nat × Nat × Nat × Nat × Nat) :
    Nat × Nat × Nat × Nat × Nat :=
  (List.range 80).foldl
    (fun st t =>
      let (a, b, c, d, e) := st
      let temp := (rotl32 5 a + sha1F t b c d + e + sha1K t + w.getD t 0) % 2 ^ 32
      (temp, a, rotl32 30 b, c, d))
    h

/-- Process one 64-byte block, updating the running hash state. -/
def sha1Block (h : Nat × Nat × Nat × Nat × Nat) (block : List Nat) :
    Nat × Nat × Nat × Nat × Nat :=
  let w := sha1Extend (bytesToWords block) 64
  let (a, b, c, d, e) := sha1Rounds w h
  let (h0, h1, h2, h3, h4) := h
  ((h0 + a) % 2 ^ 32, (h1 + b) % 2 ^ 32, (h2 + c) % 2 ^ 32,
   (h3 + d) % 2 ^ 32, (h4 + e) % 2 ^ 32)

/-- Process the padded message 64 bytes at a time. -/
def sha1Blocks (h : Nat × Nat × Nat × Nat × Nat) (msg : List Nat) :
    Nat × Nat × Nat × Nat × Nat :=
  match msg with
  | [] => h
  | b :: bs => sha1Blocks (sha1Block h ((b :: bs).take 64)) ((b :: bs).drop 64)
  termination_by msg.length
  decreasing_by simp [List.length_drop]; omega

/-- Encode a `Nat` as `n` big-endian bytes. -/
def natToBytesBE (n v : Nat) : List Nat :=
  match n with
  | 0 => []
  | m + 1 => natToBytesBE m (v / 256) ++ [v % 256]

/-- SHA-1 message padding: `0x80`, zeros to 56 mod 64, 8-byte bit length. -/
def sha1Pad (msg : List Nat) : List Nat :=
  let len := msg.length
  let zeros := (119 - len % 64) % 64
  msg ++ [0x80] ++ List.replicate zeros 0 ++ natToBytesBE 8 (len * 8)

/-- The SHA-1 digest of a byte list, as 20 bytes. -/
def sha1 (msg : List Nat) : List Nat :=
  let (h0, h1, h2, h3, h4) :=
    sha1Blocks (0x67452301, 0xEFCDAB89, 0x98BADCFE, 0x10325476, 0xC3D2E1F0)
      (sha1Pad msg)
  natToBytesBE 4 h0 ++ natToBytesBE 4 h1 ++ natToBytesBE 4 h2 ++
    natToBytesBE 4 h3 ++ natToBytesBE 4 h4

/-- Lowercase hexadecimal digit. -/
def hexDigit (n : Nat) : Char :=
  if n < 10 then Char.ofNat (48 + n) else Char.ofNat (87 + n)

/-- A byte as two lowercase hex characters (`hex.EncodeToString`). -/
def byteToHex (b : Nat) : List Char :=
  [hexDigit (b / 16), hexDigit (b % 16)]

/-- Hex encoding of a byte list (`hex.EncodeToString`). -/
def bytesToHex (bs : List Nat) : String :=
  String.mk ((bs.map byteToHex).flatten)

/-- UTF-8 encoding of one character, as Go's `[]byte(string)` produces. -/
def utf8EncodeChar (c : Char) : List Nat :=
  let n := c.toNat
  if n < 0x80 then [n]
  else if n < 0x800 then [0xC0 + n / 64, 0x80 + n % 64]
  else if n < 0x10000 then [0xE0 + n / 4096, 0x80 + (n / 64) % 64, 0x80 + n % 64]
  else [0xF0 + n / 262144, 0x80 + (n / 4096) % 64, 0x80 + (n / 64) % 64, 0x80 + n % 64]

/-- The UTF-8 bytes of a string (Go `[]byte(s)`). -/
def strBytes (s : String) : List Nat :=
  (s.toList.map utf8EncodeChar).flatten

/-- `hashTicketKey` from src/main.go: the hex SHA-1 digest of
`id + ":" + ref + ":" + class`. -/
def hashTicketKey (id ref cls : String) : String :=
  bytesToHex (sha1 (strBytes (id ++ ":" ++ ref ++ ":" ++ cls)))

/-! ## Data model

`ESTicket` mirrors the Go struct field for field.  Go `float64` second
counts are `ℚ`; the `*time.Time` date fields are `Option Instant` where
`none` models the `nil` pointer produced for a zero time (the `.In(loc)`
timezone conversion changes only the rendering of the instant, not the
instant itself, so it is not modelled). -/

/-- A point in time, as epoch seconds in the reference timezone. -/
abbrev Instant := Int

/-- The Elasticsearch document model (`ESTicket` in src/main.go). -/
structure ESTicket where
  ID : String
  Ref : String
  Class : String
  Title : String
  Status : String
  Priority : String
  Urgency : String
  Impact : String
  ServiceID : String
  ServiceName : String
  ServiceSubcategoryName : String
  AgentID : String
  Agent : String
  TeamID : String
  Team : String
  Caller : String
  CallerTeam : String
  Origin : String
  StartDate : Option Instant
  AssignmentDate : Option Instant
  ResolutionDate : Option Instant
  TimeToResponseRaw : ℚ
  TimeToResolveRaw : ℚ
  SLAComplianceResponseRaw : String
  SLAComplianceResolveRaw : String
  TimeToResponseBusinessHr : ℚ
  TimeToResolveBusinessHr : ℚ
  SLAComplianceResponseBusinessHour : String
  SLAComplianceResolveBusinessHour : String
  TimeToResponse24BH : ℚ
  TimeToResolve24BH : ℚ
  SLAComplianceResponse24BH : String
  SLAComplianceResolve24BH : String
deriving DecidableEq

/-- The iTop ticket as consumed by `mapTicketToES` (fields per their use in
src/main.go and the output-field list requested by `FetchTicketsByClass`).
`TimeToResponse`/`TimeToResolve` carry the raw wall-clock durations in
seconds. -/
structure Ticket where
  ID : String
  Ref : String
  Class : String
  Title : String
  Status : String
  Priority : String
  Urgency : String
  Impact : String
  ServiceID : String
  Service : String
  ServiceSubcategory : String
  AgentID : String
  Agent : String
  TeamID : String
  Team : String
  Caller : String
  Origin : String
  StartDate : Option Instant
  AssignmentDate : Option Instant
  ResolutionDate : Option Instant
  TimeToResponse : ℚ
  TimeToResolve : ℚ
deriving DecidableEq

/-- An SLA deadline pair (`slt.TTO`, `slt.TTR`), in seconds. -/
structure SLTDeadline where
  TTO : ℚ
  TTR : ℚ
deriving DecidableEq

/-- `priorityLabel` from src/main.go. -/
def priorityLabel (id : String) : String :=
  match id with
  | "1" => "Critical"
  | "2" => "High"
  | "3" => "Medium"
  | "4" => "Low"
  | _ => id

/-- `urgencyLabel` from src/main.go. -/
def urgencyLabel (id : String) : String :=
  match id with
  | "1" => "Critical"
  | "2" => "High"
  | "3" => "Medium"
  | "4" => "Low"
  | _ => id

/-- `impactLabel` from src/main.go. -/
def impactLabel (id : String) : String :=
  match id with
  | "1" => "A department"
  | "2" => "A service"
  | "3" => "A person"
  | _ => id

/-! ## Compliance verdict logic (src/main.go lines 199-268)

The six verdict fields are computed by two comparison shapes, one for the
raw durations and one shared by the business-hour and the 24-hour
variants.  The empty string encodes the unknown verdict. -/

/-- The raw compliance logic of `mapTicketToES` (lines 199-218): given the
observed raw duration and the threshold, both in seconds. -/
def slaComplianceRaw (raw tthr : ℚ) : String :=
  if 0 < tthr ∧ 0 < raw then
    if raw ≤ tthr then "comply" else "overdue"
  else ""

/-- The business-hour compliance logic of `mapTicketToES` (lines 220-243,
and identically lines 245-268 for the 24-hour-window variant): given the
business-hour duration `bh`, the raw wall-clock duration `raw` used as the
fallback signal, and the threshold `tthr`. -/
def slaComplianceBH (bh raw tthr : ℚ) : String :=
  if 0 < tthr then
    if (0 < bh ∧ bh ≤ tthr) ∨ (bh = 0 ∧ 0 < raw ∧ raw ≤ tthr) then "comply"
    else if 0 < bh then "overdue"
    else ""
  else ""

/-- `mapTicketToES` from src/main.go.  The external collaborators are
injected as arguments: `businessHourDuration` stands for
`utils.CalculateBusinessHourDuration` (invoked exactly as in the source,
with the configured window for the business-hour fields and the fixed
window 00:00-23:59 for the 24-hour fields), `slt` for the cached SLT
lookup result, and `fetchedCallerTeam` for the `FetchPersonTeams` result
used when the caller name is nonempty. -/
def mapTicketToES
    (businessHourDuration : Option Instant → Option Instant → String → String → List String → ℚ)
    (holidays : List String) (workStart workEnd : String)
    (slt : SLTDeadline) (fetchedCallerTeam : String) (t : Ticket) : ESTicket :=
  let ttrRaw := t.TimeToResolve
  let ttoRaw := t.TimeToResponse
  let ttrBH := businessHourDuration t.StartDate t.ResolutionDate workStart workEnd holidays
  let ttoBH := businessHourDuration t.StartDate t.AssignmentDate workStart workEnd holidays
  let ttr24BH := businessHourDuration t.StartDate t.ResolutionDate "00:00" "23:59" holidays
  let tto24BH := businessHourDuration t.StartDate t.AssignmentDate "00:00" "23:59" holidays
  let callerTeam := if t.Caller = "" then "-" else fetchedCallerTeam
  { ID := t.ID
    Ref := t.Ref
    Class := t.Class
    Title := t.Title
    Status := t.Status
    Priority := priorityLabel t.Priority
    Urgency := urgencyLabel t.Urgency
    Impact := impactLabel t.Impact
    ServiceID := t.ServiceID
    ServiceName := t.Service
    ServiceSubcategoryName := t.ServiceSubcategory
    AgentID := t.AgentID
    Agent := t.Agent
    TeamID := t.TeamID
    Team := t.Team
    Caller := t.Caller
    CallerTeam := callerTeam
    Origin := t.Origin
    StartDate := t.StartDate
    AssignmentDate := t.AssignmentDate
    ResolutionDate := t.ResolutionDate
    TimeToResponseRaw := ttoRaw
    TimeToResolveRaw := ttrRaw
    SLAComplianceResponseRaw := slaComplianceRaw ttoRaw slt.TTO
    SLAComplianceResolveRaw := slaComplianceRaw ttrRaw slt.TTR
    TimeToResponseBusinessHr := ttoBH
    TimeToResolveBusinessHr := ttrBH
    SLAComplianceResponseBusinessHour := slaComplianceBH ttoBH ttoRaw slt.TTO
    SLAComplianceResolveBusinessHour := slaComplianceBH ttrBH ttrRaw slt.TTR
    TimeToResponse24BH := tto24BH
    TimeToResolve24BH := ttr24BH
    SLAComplianceResponse24BH := slaComplianceBH tto24BH ttoRaw slt.TTO
    SLAComplianceResolve24BH := slaComplianceBH ttr24BH ttrRaw slt.TTR }

/-- `compareESTicket` from src/main.go: `bytes.Equal(json.Marshal a,
json.Marshal b)`.  `json.Marshal` is a deterministic function of the
struct value and is injective on `ESTicket` (each field marshals to a
distinct JSON member, absent date pointers are omitted and present ones
rendered in full), so byte equality of the serializations coincides with
structural equality. -/
def compareESTicket (a b : ESTicket) : Bool :=
  decide (a = b)

/-! ## String-keyed map model

Go's `map[string]T` is modelled as an association list with unique keys:
`lookupA` finds the first binding, `eraseA` removes a key (`delete`),
`insertA` overwrites a binding (`m[k] = v`). -/

/-- Lookup in a string-keyed association list (Go `v, ok := m[k]`). -/
def lookupA {α : Type} : List (String × α) → String → Option α
  | [], _ => none
  | (k', v) :: rest, k => if k' = k then some v else lookupA rest k

/-- Remove a key (Go `delete(m, k)`). -/
def eraseA {α : Type} : List (String × α) → String → List (String × α)
  | [], _ => []
  | p :: rest, k => if p.1 = k then eraseA rest k else p :: eraseA rest k

/-- Overwrite a binding (Go `m[k] = v`). -/
def insertA {α : Type} (m : List (String × α)) (k : String) (v : α) :
    List (String × α) :=
  (k, v) :: eraseA m k

/-- The key set of a map. -/
def keysA {α : Type} (m : List (String × α)) : List String :=
  m.map Prod.fst

/-! ## Reconciliation engine (syncLoop, src/main.go lines 133-154)

Each cycle builds a map from identity-hash to Elasticsearch ticket, walks
the freshly computed target records (upserting any record that is missing
from the map or differs from its mapped counterpart, and removing its key
from the map either way), and finally deletes every record left in the
map. -/

/-- The identity-hash of a record, as the sync loop and the sink writers
compute it (`hashTicketKey(t.ID, t.Ref, t.Class)`). -/
def keyOf (t : ESTicket) : String :=
  hashTicketKey t.ID t.Ref t.Class

/-- `esTicketMap` construction (lines 135-138): insert each fetched sink
record under its identity-hash, later entries overwriting earlier ones. -/
def buildMap (current : List ESTicket) : List (String × ESTicket) :=
  current.foldl (fun m t => insertA m (keyOf t) t) []

/-- The per-target walk of the sync loop (lines 141-150): returns the
records upserted, in processing order, and the final state of the map. -/
def syncTargets : List ESTicket → List (String × ESTicket) →
    List ESTicket × List (String × ESTicket)
  | [], m => ([], m)
  | t :: ts, m =>
    let need : Bool :=
      match lookupA m (keyOf t) with
      | none => true
      | some old => !(compareESTicket t old)
    let rest := syncTargets ts (eraseA m (keyOf t))
    (if need then t :: rest.1 else rest.1, rest.2)

/-- The reconciliation step of one sync cycle: the records upserted and
the records deleted (the values left in the map, lines 152-154). -/
def reconcile (target current : List ESTicket) : List ESTicket × List ESTicket :=
  let r := syncTargets target (buildMap current)
  (r.1, r.2.map Prod.snd)

/-! ## Sink write model (upsertESTicket / deleteESTicket, src/main.go)

The Elasticsearch index is a document store keyed by `_id`.
`upsertESTicket` PUTs to `/_doc/hashTicketKey(t.ID, t.Ref, t.Class)` and
`deleteESTicket` DELETEs the same address, so the sink is modelled as a
string-keyed map from document id to stored ticket. -/

/-- A sink write, as issued by the sync loop. -/
inductive SinkOp where
  | upsert (t : ESTicket)
  | del (t : ESTicket)
deriving DecidableEq

/-- Apply one sink write: both operations address the slot named by the
identity-hash of the record's composite key (lines 409-414 and 431-434). -/
def applySinkOp (s : List (String × ESTicket)) : SinkOp → List (String × ESTicket)
  | .upsert t => insertA s (keyOf t) t
  | .del t => eraseA s (keyOf t)

/-- The sink contents after a sequence of writes against an empty index. -/
def runSink (ops : List SinkOp) : List (String × ESTicket) :=
  ops.foldl applySinkOp []

/-- Well-formedness of a sink state: every document sits at the slot named
by the identity-hash of its own composite key, and slots are unique. -/
def sinkWF (s : List (String × ESTicket)) : Prop :=
  (∀ p ∈ s, p.1 = keyOf p.2) ∧ (keysA s).Nodup

/-! ## Person-team resolver (FetchPersonTeams, itop package)

State-passing embedding of `FetchPersonTeams`: the shared cache is an
explicit string map, the remote call's outcome is an input, and the result
records whether the remote was contacted (`client.Post` issued) in this
call.  The rate-limiter token acquisition happens between the empty-name
check and the remote call and does not affect the returned data, so it is
not modelled beyond the `contacted` flag. -/

/-- The outcome of the one remote lookup a cache miss performs: the POST
failing, the response body failing to unmarshal, or a parsed body with its
`code` field and, per returned person object, its `team_name` list. -/
inductive RemoteOutcome where
  | postError
  | parseError
  | parsed (code : Int) (objects : List (List String))
deriving DecidableEq

/-- What one `FetchPersonTeams` call produces: the returned team string,
whether a non-nil error was returned, the cache afterwards, and whether
the remote was contacted. -/
structure FetchTeamsResult where
  team : String
  errored : Bool
  cache : List (String × String)
  contacted : Bool
deriving DecidableEq

/-- `FetchPersonTeams` from the itop package (lines 108-198): cache check,
empty-name short-circuit, missing-environment short-circuit, then one
remote lookup whose outcome decides the result and the cache update. -/
def fetchPersonTeams (cache : List (String × String)) (personName : String)
    (envOk : Bool) (remote : RemoteOutcome) : FetchTeamsResult :=
  match lookupA cache personName with
  | some team => ⟨team, false, cache, false⟩
  | none =>
    if personName = "" then ⟨"-", false, insertA cache "" "-", false⟩
    else if !envOk then ⟨"-", false, cache, false⟩
    else
      match remote with
      | .postError => ⟨"-", true, cache, true⟩
      | .parseError => ⟨"-", true, cache, true⟩
      | .parsed code objects =>
        if code ≠ 0 ∨ objects = [] then
          ⟨"-", false, insertA cache personName "-", true⟩
        else
          let teamNames := objects.flatten
          if teamNames = [] then ⟨"-", false, insertA cache personName "-", true⟩
          else
            let teamList := String.intercalate ", " teamNames
            ⟨teamList, false, insertA cache personName teamList, true⟩

/-! ## Sink delete status handling (deleteESTicket, src/main.go lines 431-448) -/

/-- Whether `deleteESTicket` reports the response status as an error
(line 444): `resp.StatusCode >= 300 && resp.StatusCode != 404`. -/
def deleteReportsError (statusCode : Nat) : Bool :=
  decide (300 ≤ statusCode) && decide (statusCode ≠ 404)

/-- The three-valued verdict range: comply, overdue, or the empty string
encoding unknown. -/
def isVerdict (s : String) : Prop :=
  s = "comply" ∨ s = "overdue" ∨ s = ""

/-- A concrete sink record used to instantiate the hypotheses of the
universally quantified theorems below. -/
def sampleESTicket : ESTicket where
  ID := "1"
  Ref := "I-000001"
  Class := "Incident"
  Title := "printer down"
  Status := "new"
  Priority := "High"
  Urgency := "High"
  Impact := "A service"
  ServiceID := "2"
  ServiceName := "printing"
  ServiceSubcategoryName := "hardware"
  AgentID := "3"
  Agent := "agent one"
  TeamID := "4"
  Team := "support"
  Caller := "caller one"
  CallerTeam := "-"
  Origin := "mail"
  StartDate := some 1700000000
  AssignmentDate := none
  ResolutionDate := none
  TimeToResponseRaw := 0
  TimeToResolveRaw := 0
  SLAComplianceResponseRaw := ""
  SLAComplianceResolveRaw := ""
  TimeToResponseBusinessHr := 0
  TimeToResolveBusinessHr := 0
  SLAComplianceResponseBusinessHour := ""
  SLAComplianceResolveBusinessHour := ""
  TimeToResponse24BH := 0
  TimeToResolve24BH := 0
  SLAComplianceResponse24BH := ""
  SLAComplianceResolve24BH := ""


theorem lookupA_eraseA {α : Type} (m : List (String × α)) (k k' : String) :
    lookupA (eraseA m k) k' = if k' = k then none else lookupA m k' := by
  induction m with
  | nil => simp only [eraseA, lookupA]; split <;> rfl
  | cons p rest ih =>
    by_cases h1 : p.1 = k <;> by_cases h2 : p.1 = k' <;> by_cases h3 : k' = k <;>
      simp_all [eraseA, lookupA]

theorem lookupA_eraseA_self {α : Type} (m : List (String × α)) (k : String) :
    lookupA (eraseA m k) k = none := by
  simp [lookupA_eraseA]

theorem lookupA_eraseA_ne {α : Type} (m : List (String × α)) {k k' : String}
    (h : k' ≠ k) : lookupA (eraseA m k) k' = lookupA m k' := by
  simp [lookupA_eraseA, h]

theorem lookupA_insertA_self {α : Type} (m : List (String × α)) (k : String) (v : α) :
    lookupA (insertA m k v) k = some v := by
  simp [insertA, lookupA]

theorem lookupA_insertA_ne {α : Type} (m : List (String × α)) {k k' : String} (v : α)
    (h : k' ≠ k) : lookupA (insertA m k v) k' = lookupA m k' := by
  have : ¬ k = k' := fun h' => h h'.symm
  simp [insertA, lookupA, this, lookupA_eraseA_ne m h]

theorem mem_eraseA {α : Type} {m : List (String × α)} {k : String} {p : String × α}
    (h : p ∈ eraseA m k) : p ∈ m ∧ p.1 ≠ k := by
  induction m with
  | nil => simp [eraseA] at h
  | cons q rest ih =>
    by_cases h1 : q.1 = k
    · rw [eraseA, if_pos h1] at h
      exact ⟨List.mem_cons_of_mem _ (ih h).1, (ih h).2⟩
    · rw [eraseA, if_neg h1] at h
      rcases List.mem_cons.mp h with h | h
      · rw [h]
        exact ⟨List.mem_cons_self _ _, h1⟩
      · exact ⟨List.mem_cons_of_mem _ (ih h).1, (ih h).2⟩

theorem mem_insertA {α : Type} {m : List (String × α)} {k : String} {v : α}
    {p : String × α} (h : p ∈ insertA m k v) : p = (k, v) ∨ p ∈ m := by
  simp only [insertA, List.mem_cons] at h
  rcases h with h | h
  · exact Or.inl h
  · exact Or.inr (mem_eraseA h).1

theorem mem_of_lookupA {α : Type} {m : List (String × α)} {k : String} {v : α}
    (h : lookupA m k = some v) : (k, v) ∈ m := by
  induction m with
  | nil => simp [lookupA] at h
  | cons p rest ih =>
    by_cases h1 : p.1 = k
    · simp only [lookupA, if_pos h1, Option.some.injEq] at h
      exact List.mem_cons.mpr (Or.inl (by rw [← h1, ← h]))
    · simp only [lookupA, if_neg h1] at h
      exact List.mem_cons_of_mem _ (ih h)

theorem exists_lookupA_of_mem_keysA {α : Type} {m : List (String × α)} {k : String}
    (h : k ∈ keysA m) : ∃ v, lookupA m k = some v := by
  induction m with
  | nil => simp [keysA] at h
  | cons p rest ih =>
    by_cases h1 : p.1 = k
    · exact ⟨p.2, by simp [lookupA, h1]⟩
    · simp only [keysA, List.map_cons, List.mem_cons] at h
      rcases h with h | h
      · exact absurd h.symm h1
      · simpa [lookupA, h1] using ih h

theorem mem_keysA_of_mem {α : Type} {m : List (String × α)} {p : String × α}
    (h : p ∈ m) : p.1 ∈ keysA m :=
  List.mem_map_of_mem Prod.fst h

theorem keysA_eraseA {α : Type} {m : List (String × α)} {k k' : String}
    (h : k' ∈ keysA (eraseA m k)) : k' ∈ keysA m ∧ k' ≠ k := by
  simp only [keysA, List.mem_map] at h ⊢
  rcases h with ⟨p, hp, hk⟩
  rcases mem_eraseA hp with ⟨hm, hne⟩
  exact ⟨⟨p, hm, hk⟩, hk ▸ hne⟩

theorem nodup_keysA_eraseA {α : Type} {m : List (String × α)} (k : String)
    (h : (keysA m).Nodup) : (keysA (eraseA m k)).Nodup := by
  induction m with
  | nil => simp [eraseA, keysA]
  | cons p rest ih =>
    simp only [keysA, List.map_cons, List.nodup_cons] at h
    by_cases h1 : p.1 = k
    · simpa only [eraseA, if_pos h1] using ih h.2
    · simp only [eraseA, if_neg h1, keysA, List.map_cons, List.nodup_cons]
      refine ⟨fun hmem => ?_, ih h.2⟩
      exact h.1 ((keysA_eraseA hmem).1)

theorem nodup_keysA_insertA {α : Type} {m : List (String × α)} (k : String) (v : α)
    (h : (keysA m).Nodup) : (keysA (insertA m k v)).Nodup := by
  simp only [insertA, keysA, List.map_cons, List.nodup_cons]
  exact ⟨fun hmem => (keysA_eraseA hmem).2 rfl, nodup_keysA_eraseA k h⟩

theorem eq_of_mem_nodup_keysA {α : Type} {m : List (String × α)} {p q : String × α}
    (hnd : (keysA m).Nodup) (hp : p ∈ m) (hq : q ∈ m) (hk : p.1 = q.1) : p = q := by
  induction m with
  | nil => simp at hp
  | cons r rest ih =>
    simp only [keysA, List.map_cons, List.nodup_cons] at hnd
    rcases List.mem_cons.mp hp with hp' | hp' <;> rcases List.mem_cons.mp hq with hq' | hq'
    · rw [hp', hq']
    · exfalso
      apply hnd.1
      have hmem : q.1 ∈ keysA rest := mem_keysA_of_mem hq'
      rwa [← hk, hp'] at hmem
    · exfalso
      apply hnd.1
      have hmem : p.1 ∈ keysA rest := mem_keysA_of_mem hp'
      rwa [hk, hq'] at hmem
    · exact ih hnd.2 hp' hq'

theorem syncTargets_self (ts : List ESTicket) (m : List (String × ESTicket))
    (hnd : (ts.map keyOf).Nodup)
    (hmem : ∀ t ∈ ts, lookupA m (keyOf t) = some t)
    (hkeys : ∀ k ∈ keysA m, ∃ t ∈ ts, keyOf t = k) :
    syncTargets ts m = ([], []) := by
  induction ts generalizing m with
  | nil =>
    cases m with
    | nil => rfl
    | cons p rest =>
      exact absurd (hkeys p.1 (List.mem_map_of_mem Prod.fst (List.mem_cons_self p rest)))
        (by simp)
  | cons t ts ih =>
    have hl := hmem t (List.mem_cons_self t ts)
    simp only [List.map_cons, List.nodup_cons] at hnd
    have hrec : syncTargets ts (eraseA m (keyOf t)) = ([], []) := by
      refine ih _ hnd.2 (fun u hu => ?_) (fun k hk => ?_)
      · have hne : keyOf u ≠ keyOf t := by
          intro h
          exact hnd.1 (h ▸ List.mem_map_of_mem keyOf hu)
        rw [lookupA_eraseA_ne m hne]
        exact hmem u (List.mem_cons_of_mem _ hu)
      · rcases keysA_eraseA hk with ⟨hk', hne⟩
        rcases hkeys k hk' with ⟨u, hu, hku⟩
        rcases List.mem_cons.mp hu with hu' | hu'
        · exact absurd (hu' ▸ hku).symm hne
        · exact ⟨u, hu', hku⟩
    simp only [syncTargets, hl, compareESTicket, decide_eq_true_eq, hrec]
    simp

theorem lookupA_foldl_insert_not_mem (l : List ESTicket)
    (m : List (String × ESTicket)) (k : String)
    (h : ∀ u ∈ l, keyOf u ≠ k) :
    lookupA (l.foldl (fun m t => insertA m (keyOf t) t) m) k = lookupA m k := by
  induction l generalizing m with
  | nil => rfl
  | cons t ts ih =>
    rw [List.foldl_cons, ih _ (fun u hu => h u (List.mem_cons_of_mem _ hu))]
    exact lookupA_insertA_ne m t (fun he => h t (List.mem_cons_self t ts) he.symm)

theorem lookupA_foldl_insert_mem (l : List ESTicket) :
    ∀ (m : List (String × ESTicket)) (t : ESTicket),
      (l.map keyOf).Nodup → t ∈ l →
      lookupA (l.foldl (fun m t => insertA m (keyOf t) t) m) (keyOf t) = some t := by
  induction l with
  | nil => intro m t _ ht; simp at ht
  | cons u us ih =>
    intro m t hnd ht
    simp only [List.map_cons, List.nodup_cons] at hnd
    rcases List.mem_cons.mp ht with ht' | ht'
    · subst ht'
      rw [List.foldl_cons,
        lookupA_foldl_insert_not_mem us _ _
          (fun v hv he => hnd.1 (by rw [← he]; exact List.mem_map_of_mem keyOf hv))]
      exact lookupA_insertA_self m (keyOf t) t
    · exact ih _ t hnd.2 ht'

theorem keysA_foldl_insert (l : List ESTicket) (m : List (String × ESTicket))
    (k : String) (h : k ∈ keysA (l.foldl (fun m t => insertA m (keyOf t) t) m)) :
    k ∈ keysA m ∨ ∃ t ∈ l, keyOf t = k := by
  induction l generalizing m with
  | nil => exact Or.inl h
  | cons t ts ih =>
    rw [List.foldl_cons] at h
    rcases ih _ h with h' | h'
    · rcases List.mem_map.mp h' with ⟨p, hp, hk⟩
      rcases mem_insertA hp with hp' | hp'
      · exact Or.inr ⟨t, List.mem_cons_self t ts, by rw [← hk, hp']⟩
      · exact Or.inl (hk ▸ mem_keysA_of_mem hp')
    · rcases h' with ⟨u, hu, hku⟩
      exact Or.inr ⟨u, List.mem_cons_of_mem _ hu, hku⟩

theorem buildMap_entry_key {current : List ESTicket} {p : String × ESTicket}
    (h : p ∈ buildMap current) : p.1 = keyOf p.2 := by
  suffices hgen : ∀ (l : List ESTicket) (m : List (String × ESTicket)),
      (∀ q ∈ m, q.1 = keyOf q.2) →
      ∀ q ∈ l.foldl (fun m t => insertA m (keyOf t) t) m, q.1 = keyOf q.2 by
    exact hgen current [] (by simp) p h
  intro l
  induction l with
  | nil => intro m hm q hq; exact hm q hq
  | cons t ts ih =>
    intro m hm q hq
    rw [List.foldl_cons] at hq
    refine ih _ (fun r hr => ?_) q hq
    rcases mem_insertA hr with hr' | hr'
    · rw [hr']
    · exact hm r hr'

theorem mem_syncTargets_fst (ts : List ESTicket) (m : List (String × ESTicket))
    (t : ESTicket) (ht : t ∈ ts) (h : lookupA m (keyOf t) ≠ some t) :
    t ∈ (syncTargets ts m).1 := by
  induction ts generalizing m with
  | nil => simp at ht
  | cons u us ih =>
    rcases List.mem_cons.mp ht with ht' | ht'
    · subst ht'
      have hneed : (match lookupA m (keyOf t) with
          | none => true
          | some old => !(compareESTicket t old)) = true := by
        rcases hl : lookupA m (keyOf t) with _ | old
        · rfl
        · simp only [compareESTicket, Bool.not_eq_true', decide_eq_false_iff_not]
          intro he
          exact h (he ▸ hl)
      simp only [syncTargets, hneed, if_pos]
      exact List.mem_cons_self _ _
    · have h' : lookupA (eraseA m (keyOf u)) (keyOf t) ≠ some t := by
        by_cases he : keyOf t = keyOf u
        · rw [he, lookupA_eraseA_self]
          simp
        · rw [lookupA_eraseA_ne m he]
          exact h
      have hrec := ih (eraseA m (keyOf u)) ht' h'
      simp only [syncTargets]
      split <;> simp [hrec]

theorem lookupA_syncTargets_snd (ts : List ESTicket) (m : List (String × ESTicket))
    (k : String) (h : ∀ t ∈ ts, keyOf t ≠ k) :
    lookupA (syncTargets ts m).2 k = lookupA m k := by
  induction ts generalizing m with
  | nil => rfl
  | cons t ts ih =>
    simp only [syncTargets]
    rw [ih _ (fun u hu => h u (List.mem_cons_of_mem _ hu)),
      lookupA_eraseA_ne m (fun he => h t (List.mem_cons_self t ts) he.symm)]

theorem mem_syncTargets_snd (ts : List ESTicket) (m : List (String × ESTicket))
    (p : String × ESTicket) (h : p ∈ (syncTargets ts m).2) : p ∈ m := by
  induction ts generalizing m with
  | nil => exact h
  | cons t ts ih =>
    simp only [syncTargets] at h
    exact (mem_eraseA (ih _ h)).1

theorem syncTargets_fst_subset (ts : List ESTicket) (m : List (String × ESTicket))
    (u : ESTicket) (h : u ∈ (syncTargets ts m).1) : u ∈ ts := by
  induction ts generalizing m with
  | nil => simp [syncTargets] at h
  | cons t ts ih =>
    simp only [syncTargets] at h
    rcases h' : (match lookupA m (keyOf t) with
        | none => true
        | some old => !(compareESTicket t old)) with _ | _
    · rw [h', if_neg (by simp)] at h
      exact List.mem_cons_of_mem _ (ih _ h)
    · rw [h', if_pos rfl] at h
      rcases List.mem_cons.mp h with h'' | h''
      · exact h'' ▸ List.mem_cons_self t ts
      · exact List.mem_cons_of_mem _ (ih _ h'')

theorem keysA_syncTargets_snd (ts : List ESTicket) (m : List (String × ESTicket))
    (k : String) (hk : k ∈ keysA (syncTargets ts m).2) :
    ∀ t ∈ ts, keyOf t ≠ k := by
  intro t ht
  induction ts generalizing m with
  | nil => simp at ht
  | cons u us ih =>
    simp only [syncTargets] at hk
    rcases List.mem_cons.mp ht with ht' | ht'
    · subst ht'
      intro he
      rcases List.mem_map.mp hk with ⟨p, hp, hpk⟩
      have hpe := mem_syncTargets_snd us _ p hp
      exact (mem_eraseA hpe).2 (hpk.trans he.symm)
    · exact ih _ hk ht'

theorem sinkWF_applySinkOp (s : List (String × ESTicket)) (op : SinkOp)
    (h : sinkWF s) : sinkWF (applySinkOp s op) := by
  rcases op with t | t
  · refine ⟨fun p hp => ?_, nodup_keysA_insertA _ _ h.2⟩
    rcases mem_insertA hp with hp' | hp'
    · rw [hp']
    · exact h.1 p hp'
  · exact ⟨fun p hp => h.1 p (mem_eraseA hp).1, nodup_keysA_eraseA _ h.2⟩

theorem sinkWF_runSink (ops : List SinkOp) : sinkWF (runSink ops) := by
  suffices hgen : ∀ (l : List SinkOp) (s : List (String × ESTicket)),
      sinkWF s → sinkWF (l.foldl applySinkOp s) by
    exact hgen ops [] ⟨by simp, by simp [keysA]⟩
  intro l
  induction l with
  | nil => intro s hs; exact hs
  | cons op l ih =>
    intro s hs
    exact ih _ (sinkWF_applySinkOp s op hs)

/-! ## Claim theorems -/

/-- C5: for a positive SLA threshold and a positive observed raw duration,
the raw compliance verdict is comply when the observed duration is at most
the threshold and overdue otherwise; when the threshold or the observed
raw duration is zero, the raw verdict is unknown (encoded `""`). -/
theorem slaComplianceRaw_spec (raw tthr : ℚ) :
    (0 < tthr → 0 < raw →
      slaComplianceRaw raw tthr = if raw ≤ tthr then "comply" else "overdue") ∧
    (tthr = 0 ∨ raw = 0 → slaComplianceRaw raw tthr = "") := by
  constructor
  · intro h1 h2
    unfold slaComplianceRaw
    rw [if_pos ⟨h1, h2⟩]
  · intro h
    unfold slaComplianceRaw
    rw [if_neg]
    rintro ⟨h1, h2⟩
    rcases h with h | h
    · rw [h] at h1
      exact lt_irrefl 0 h1
    · rw [h] at h2
      exact lt_irrefl 0 h2

/-- Witness for C5 at threshold 5 s, observed 3 s. -/
theorem slaComplianceRaw_spec_witness :
    (0 : ℚ) < 5 ∧ (0 : ℚ) < 3 ∧
      slaComplianceRaw 3 5 = if (3 : ℚ) ≤ 5 then "comply" else "overdue" :=
  ⟨by decide, by decide, (slaComplianceRaw_spec 3 5).1 (by decide) (by decide)⟩

/-- C1, counterexample: at threshold 5 s, business-hour duration 0 and raw
duration 10 s (positive and above the threshold), the code produces the
unknown verdict `""`, not the `overdue` the claim prescribes for the
raw-duration fallback. -/
theorem slaComplianceBH_fallback_counterexample :
    (0 : ℚ) < 5 ∧ (0 : ℚ) < 10 ∧ ¬ ((10 : ℚ) ≤ 5) ∧
    slaComplianceBH 0 10 5 = "" ∧ slaComplianceBH 0 10 5 ≠ "overdue" := by
  decide

/-- C1, amended: for a positive threshold, a positive business-hour
duration is compared to the threshold (comply/overdue); when the
business-hour duration is exactly zero the raw fallback yields comply
when the raw duration is positive and at most the threshold, and the
verdict is unknown in every other zero-business-hour case — including a
positive raw duration above the threshold, which the fallback never turns
into overdue. -/
theorem slaComplianceBH_fallback_spec (bh raw tthr : ℚ) (hthr : 0 < tthr) :
    (0 < bh → slaComplianceBH bh raw tthr =
      if bh ≤ tthr then "comply" else "overdue") ∧
    (bh = 0 → 0 < raw → raw ≤ tthr → slaComplianceBH bh raw tthr = "comply") ∧
    (bh = 0 → ¬ (0 < raw ∧ raw ≤ tthr) → slaComplianceBH bh raw tthr = "") := by
  refine ⟨fun hbh => ?_, fun hbh hraw hle => ?_, fun hbh hnot => ?_⟩
  · by_cases hle : bh ≤ tthr
    · unfold slaComplianceBH
      rw [if_pos hthr, if_pos (Or.inl ⟨hbh, hle⟩), if_pos hle]
    · have h1 : ¬ ((0 < bh ∧ bh ≤ tthr) ∨ (bh = 0 ∧ 0 < raw ∧ raw ≤ tthr)) := by
        rintro (⟨_, h⟩ | ⟨h0, _, _⟩)
        · exact hle h
        · rw [h0] at hbh
          exact lt_irrefl 0 hbh
      unfold slaComplianceBH
      rw [if_pos hthr, if_neg h1, if_pos hbh, if_neg hle]
  · unfold slaComplianceBH
    rw [if_pos hthr, if_pos (Or.inr ⟨hbh, hraw, hle⟩)]
  · have h1 : ¬ ((0 < bh ∧ bh ≤ tthr) ∨ (bh = 0 ∧ 0 < raw ∧ raw ≤ tthr)) := by
      rintro (⟨ha, _⟩ | ⟨_, hb, hc⟩)
      · rw [hbh] at ha
        exact lt_irrefl 0 ha
      · exact hnot ⟨hb, hc⟩
    have h2 : ¬ (0 < bh) := by
      rw [hbh]
      exact lt_irrefl 0
    unfold slaComplianceBH
    rw [if_pos hthr, if_neg h1, if_neg h2]

/-- Witness for the amended C1 at threshold 5 s, business-hour duration 0,
raw duration 3 s: the fallback yields comply. -/
theorem slaComplianceBH_fallback_spec_witness :
    (0 : ℚ) < 5 ∧ slaComplianceBH 0 3 5 = "comply" :=
  ⟨by decide, (slaComplianceBH_fallback_spec 0 3 5 (by decide)).2.1 rfl
    (by decide) (by decide)⟩

theorem slaComplianceRaw_range (raw tthr : ℚ) : isVerdict (slaComplianceRaw raw tthr) := by
  unfold slaComplianceRaw isVerdict
  split
  · split
    · exact Or.inl rfl
    · exact Or.inr (Or.inl rfl)
  · exact Or.inr (Or.inr rfl)

theorem slaComplianceBH_range (bh raw tthr : ℚ) : isVerdict (slaComplianceBH bh raw tthr) := by
  unfold slaComplianceBH isVerdict
  split
  · split
    · exact Or.inl rfl
    · split
      · exact Or.inr (Or.inl rfl)
      · exact Or.inr (Or.inr rfl)
  · exact Or.inr (Or.inr rfl)

/-- C10: every compliance verdict field produced by the record-mapping
step — raw, business-hour and 24-hour, for both response and resolution —
is `"comply"`, `"overdue"`, or `""` (the encoding of unknown), whatever
the ticket, thresholds, computed durations and enrichment inputs are. -/
theorem mapTicketToES_verdict_range
    (f : Option Instant → Option Instant → String → String → List String → ℚ)
    (hol : List String) (ws we : String) (slt : SLTDeadline) (ct : String)
    (t : Ticket) :
    isVerdict (mapTicketToES f hol ws we slt ct t).SLAComplianceResponseRaw ∧
    isVerdict (mapTicketToES f hol ws we slt ct t).SLAComplianceResolveRaw ∧
    isVerdict (mapTicketToES f hol ws we slt ct t).SLAComplianceResponseBusinessHour ∧
    isVerdict (mapTicketToES f hol ws we slt ct t).SLAComplianceResolveBusinessHour ∧
    isVerdict (mapTicketToES f hol ws we slt ct t).SLAComplianceResponse24BH ∧
    isVerdict (mapTicketToES f hol ws we slt ct t).SLAComplianceResolve24BH :=
  ⟨slaComplianceRaw_range _ _, slaComplianceRaw_range _ _,
   slaComplianceBH_range _ _ _, slaComplianceBH_range _ _ _,
   slaComplianceBH_range _ _ _, slaComplianceBH_range _ _ _⟩

/-- C7: the sink delete treats status 404 (already absent) as success —
it is not reported as an error — while every other status of 300 or above
is reported as an error. -/
theorem deleteStatus_spec :
    deleteReportsError 404 = false ∧
    ∀ s : Nat, 300 ≤ s → s ≠ 404 → deleteReportsError s = true := by
  refine ⟨by decide, fun s h1 h2 => ?_⟩
  simp [deleteReportsError, h1, h2]

/-- Witness for C7 at status 500. -/
theorem deleteStatus_spec_witness :
    300 ≤ 500 ∧ (500 : Nat) ≠ 404 ∧ deleteReportsError 500 = true :=
  ⟨by decide, by decide, deleteStatus_spec.2 500 (by decide) (by decide)⟩

/-- C2: the reconciliation step is idempotent: running it with the target
set against a current snapshot equal to the target produces an empty
upsert set and an empty delete set.  The records of the set are required
to have pairwise distinct identity-hashes, which any snapshot of the
hash-keyed sink satisfies. -/
theorem reconcile_self_empty (target : List ESTicket)
    (hnd : (target.map keyOf).Nodup) :
    reconcile target target = ([], []) := by
  have h := syncTargets_self target (buildMap target) hnd
    (fun t ht => lookupA_foldl_insert_mem target [] t hnd ht)
    (fun k hk => by
      rcases keysA_foldl_insert target [] k hk with h' | h'
      · simp [keysA] at h'
      · exact h')
  simp [reconcile, h]

/-- Witness for C2 on a one-record set. -/
theorem reconcile_self_empty_witness :
    (([sampleESTicket].map keyOf).Nodup) ∧
    reconcile [sampleESTicket] [sampleESTicket] = ([], []) :=
  ⟨by simp, reconcile_self_empty [sampleESTicket] (by simp)⟩

/-- C3: reconciliation is complete: every target record whose
identity-hash is absent from the current snapshot's map or whose content
differs from its mapped counterpart is upserted; every identity-hash
present in the current snapshot's map but carried by no target record is
deleted; and the upserted and deleted identity-hash sets are disjoint. -/
theorem reconcile_complete (target current : List ESTicket) :
    (∀ t ∈ target, lookupA (buildMap current) (keyOf t) ≠ some t →
      t ∈ (reconcile target current).1) ∧
    (∀ k ∈ keysA (buildMap current), (∀ t ∈ target, keyOf t ≠ k) →
      ∃ d ∈ (reconcile target current).2, keyOf d = k) ∧
    (∀ u ∈ (reconcile target current).1, ∀ d ∈ (reconcile target current).2,
      keyOf u ≠ keyOf d) := by
  refine ⟨fun t ht h => ?_, fun k hk htk => ?_, fun u hu d hd => ?_⟩
  · exact mem_syncTargets_fst target (buildMap current) t ht h
  · rcases exists_lookupA_of_mem_keysA hk with ⟨v, hv⟩
    have hfin : lookupA (syncTargets target (buildMap current)).2 k = some v := by
      rw [lookupA_syncTargets_snd target (buildMap current) k htk]
      exact hv
    have hmem := mem_of_lookupA hfin
    have hkey : k = keyOf v :=
      buildMap_entry_key (mem_syncTargets_snd target _ _ hmem)
    exact ⟨v, List.mem_map_of_mem Prod.snd hmem, hkey.symm⟩
  · rcases List.mem_map.mp hd with ⟨p, hp, hpd⟩
    have hk1 : p.1 = keyOf p.2 :=
      buildMap_entry_key (mem_syncTargets_snd target _ _ hp)
    have hknotin :=
      keysA_syncTargets_snd target (buildMap current) p.1 (mem_keysA_of_mem hp)
    have hu' : u ∈ target := syncTargets_fst_subset target _ u hu
    intro he
    exact hknotin u hu' (by rw [he, ← hpd, ← hk1])

/-- Witness for C3: a record absent from an empty snapshot is upserted. -/
theorem reconcile_complete_witness :
    sampleESTicket ∈ ([sampleESTicket] : List ESTicket) ∧
    sampleESTicket ∈ (reconcile [sampleESTicket] []).1 :=
  ⟨List.mem_cons_self _ _,
   (reconcile_complete [sampleESTicket] []).1 sampleESTicket
     (List.mem_cons_self _ _) (by simp [buildMap, lookupA])⟩

/-- C4: in any sink state reachable by the engine's writes — every upsert
and delete addresses the slot named by the identity-hash of the record's
composite key — two stored documents whose records carry the same
composite key (id, ref, class) are the same document: at most one sink
record exists per composite key. -/
theorem sink_at_most_one_per_key (ops : List SinkOp) (p q : String × ESTicket)
    (hp : p ∈ runSink ops) (hq : q ∈ runSink ops)
    (hid : p.2.ID = q.2.ID) (href : p.2.Ref = q.2.Ref)
    (hcls : p.2.Class = q.2.Class) :
    p = q := by
  have hwf := sinkWF_runSink ops
  have hk : p.1 = q.1 := by
    rw [hwf.1 p hp, hwf.1 q hq, keyOf, keyOf, hid, href, hcls]
  exact eq_of_mem_nodup_keysA hwf.2 hp hq hk

/-- Witness for C4 on a single upsert. -/
theorem sink_at_most_one_per_key_witness :
    (keyOf sampleESTicket, sampleESTicket) ∈
      runSink [SinkOp.upsert sampleESTicket] ∧
    ((keyOf sampleESTicket, sampleESTicket) : String × ESTicket) =
      (keyOf sampleESTicket, sampleESTicket) :=
  have hmem : (keyOf sampleESTicket, sampleESTicket) ∈
      runSink [SinkOp.upsert sampleESTicket] := by
    simp [runSink, applySinkOp, insertA, eraseA]
  ⟨hmem, sink_at_most_one_per_key [SinkOp.upsert sampleESTicket] _ _ hmem hmem
    rfl rfl rfl⟩

/-- C9: the identity-hash is deterministic — equal composite keys always
yield equal digests — but not injective on the composite key: the three
fields are joined with ":" without escaping, so the distinct keys
("a:b", "c", "Incident") and ("a", "b:c", "Incident") hash the same
preimage "a:b:c:Incident" and produce the same digest, addressing the
same sink slot. -/
theorem hashTicketKey_deterministic_not_injective :
    (∀ k k' : String × String × String, k = k' →
      hashTicketKey k.1 k.2.1 k.2.2 = hashTicketKey k'.1 k'.2.1 k'.2.2) ∧
    hashTicketKey "a:b" "c" "Incident" = hashTicketKey "a" "b:c" "Incident" ∧
    ("a:b", "c", "Incident") ≠ (("a", "b:c", "Incident") : String × String × String) := by
  refine ⟨fun k k' h => by rw [h], ?_, by decide⟩
  show bytesToHex (sha1 (strBytes ("a:b" ++ ":" ++ "c" ++ ":" ++ "Incident"))) =
    bytesToHex (sha1 (strBytes ("a" ++ ":" ++ "b:c" ++ ":" ++ "Incident")))
  have h : ("a:b" ++ ":" ++ "c" ++ ":" ++ "Incident" : String) =
      "a" ++ ":" ++ "b:c" ++ ":" ++ "Incident" := by decide
  rw [h]

/-- Witness for the determinism hypothesis of C9. -/
theorem hashTicketKey_deterministic_witness :
    (("1", "R-1", "Incident") : String × String × String) =
      ("1", "R-1", "Incident") ∧
    hashTicketKey "1" "R-1" "Incident" = hashTicketKey "1" "R-1" "Incident" :=
  ⟨rfl, hashTicketKey_deterministic_not_injective.1
    ("1", "R-1", "Incident") ("1", "R-1", "Incident") rfl⟩

/-- C6, counterexample: on a parse failure the resolver returns the "-"
sentinel but does not store the negative result: the cache stays empty,
and a second cycle for the same name contacts the remote again. -/
theorem fetchPersonTeams_parse_error_counterexample :
    (fetchPersonTeams [] "bob" true .parseError).team = "-" ∧
    (fetchPersonTeams [] "bob" true .parseError).cache = [] ∧
    lookupA (fetchPersonTeams [] "bob" true .parseError).cache "bob" = none ∧
    (fetchPersonTeams (fetchPersonTeams [] "bob" true .parseError).cache
      "bob" true .parseError).contacted = true := by
  decide

/-- C6, amended: when the remote lookup's response body fails to parse,
the lookup is treated as a failure — the "-" sentinel is returned together
with the error — but the negative result is NOT stored in the cache, so a
subsequent cycle for the same name contacts the remote again; negative
caching happens only for well-formed responses (nonzero code, no objects,
or an empty team list). -/
theorem fetchPersonTeams_parse_error_spec (cache : List (String × String))
    (name : String) (hmiss : lookupA cache name = none) (hne : name ≠ "") :
    fetchPersonTeams cache name true .parseError = ⟨"-", true, cache, true⟩ := by
  simp [fetchPersonTeams, hmiss, hne]

/-- Witness for the amended C6 on an empty cache and the name "bob". -/
theorem fetchPersonTeams_parse_error_spec_witness :
    lookupA ([] : List (String × String)) "bob" = none ∧ "bob" ≠ "" ∧
    fetchPersonTeams [] "bob" true .parseError = ⟨"-", true, [], true⟩ :=
  ⟨rfl, by decide, fetchPersonTeams_parse_error_spec [] "bob" rfl (by decide)⟩

/-- C8: resolving the empty person name returns "-" without contacting
the remote and leaves "-" cached under the empty name, so every later
resolution of the empty name is served from the cache.  The hypothesis —
the empty name is either uncached or cached as "-" — holds in every
reachable cache state, since the empty-name branch is the only writer of
the empty-name entry and always writes "-". -/
theorem fetchPersonTeams_empty_name (cache : List (String × String))
    (envOk : Bool) (remote : RemoteOutcome)
    (h : lookupA cache "" = none ∨ lookupA cache "" = some "-") :
    (fetchPersonTeams cache "" envOk remote).team = "-" ∧
    (fetchPersonTeams cache "" envOk remote).contacted = false ∧
    lookupA (fetchPersonTeams cache "" envOk remote).cache "" = some "-" := by
  rcases h with h | h <;>
    simp [fetchPersonTeams, h, lookupA_insertA_self]

/-- Witness for C8 on an empty cache. -/
theorem fetchPersonTeams_empty_name_witness :
    (lookupA ([] : List (String × String)) "" = none ∨
      lookupA ([] : List (String × String)) "" = some "-") ∧
    ((fetchPersonTeams [] "" true .postError).team = "-" ∧
     (fetchPersonTeams [] "" true .postError).contacted = false ∧
     lookupA (fetchPersonTeams [] "" true .postError).cache "" = some "-") :=
  ⟨Or.inl rfl, fetchPersonTeams_empty_name [] true .postError (Or.inl rfl)⟩

end ItopSync

